import Mathlib

set_option maxRecDepth 100000

/-!
# Verification of the tui-generative-art core

Shallow embedding of the repository's computational core:

* `src/src/experiments/flow/noise.ts` — seedable 3D simplex noise
  (LCG + Fisher–Yates seeding, permutation/gradient tables, `simplex3`);
* `src/src/experiments/plasma/Plasma.tsx` — `plasmaValue` and the row
  segment-batching loop of `plasmaElements`;
* `src/src/experiments/life/simulation.ts` — `countNeighbors`, `step`,
  `placePattern`;
* `src/unnamed/part_003` (the fractal module) — `calculatePoint`;
* `src/src/experiments/flow/FlowField.tsx` — `noiseToDotIndex`,
  `noiseToGrayIndex`;
* the keyboard parameter-adjustment handlers of `Plasma.tsx` and
  `FractalExplorer.tsx`.

JavaScript numbers are IEEE-754 doubles.  Where the code manipulates
exact small integers we use `ℕ`/`ℤ`; where rounding of large integer
products is observable (the LCG inside `seed`) we model the rounding of
an integer to 53 significant bits explicitly (`fl53`); real-valued
mathematics (`Math.sin`, `Math.sqrt`, `Math.log`, noise corner sums) is
idealised over `ℝ`, and exact field arithmetic on small decimal
literals over `ℚ`, in line with the spec's non-goal of bit-exact
floating-point reproducibility.
-/

/-! ## IEEE-754 double rounding of integers

`fl53Nat`/`fl53` model the rounding of an exact integer to the nearest
IEEE-754 double (53 significant bits, round-to-nearest, ties to even).
Integers of magnitude below `2 ^ 53` are exactly representable. -/

def fl53Nat (n : ℕ) : ℕ :=
  if n < 2 ^ 53 then n
  else
    let e := Nat.log 2 n - 52
    let q := n / 2 ^ e
    let r := n % 2 ^ e
    let q' := if r < 2 ^ (e - 1) then q
      else if 2 ^ (e - 1) < r then q + 1
      else if q % 2 = 0 then q else q + 1
    q' * 2 ^ e

def fl53 (x : ℤ) : ℤ :=
  if x < 0 then -(fl53Nat x.natAbs : ℤ) else (fl53Nat x.natAbs : ℤ)

/-! ## Simplex noise: seeding (`src/src/experiments/flow/noise.ts`)

`seed(value)` builds a 256-entry permutation `p` (identity, then a
Fisher–Yates shuffle driven by an LCG), and overwrites the module-level
512-entry tables `perm` and `gradP` in place.

The LCG line `s = (s * 1103515245 + 12345) & 0x7fffffff` runs on doubles:
the product and the sum are each rounded to 53 bits (`fl53`) before the
bitwise AND coerces to an int32 and masks, which for an integer value is
reduction mod `2 ^ 31`. -/

def lcg (s : ℤ) : ℕ :=
  ((fl53 (fl53 (s * 1103515245) + 12345)) % (2 ^ 31)).toNat

/-- Models `Math.floor(random() * (i + 1))`, where `random()` returns
`s / 0x7fffffff`.  The two double roundings (of the quotient and of the
product with `i + 1`) can only shift the floor at exact-tie boundaries
and never past `i + 1` (the quotient is `≤ 1`, with equality exactly
when `s = 0x7fffffff`); we take the exact rational floor. -/
def jIndex (s : ℕ) (i : ℕ) : ℕ :=
  s * (i + 1) / (2 ^ 31 - 1)

/-- The destructuring swap `[p[i], p[j]] = [p[j]!, p[i]!]` on the
`Uint8Array(256)`.  Reading `p[j]` out of bounds gives `undefined`, which
the typed-array store coerces to `0`; an out-of-bounds store is dropped.
`List.getD _ _ 0` and `List.set` have exactly these semantics. -/
def fySwap (p : List ℕ) (i j : ℕ) : List ℕ :=
  (p.set i (p.getD j 0)).set j (p.getD i 0)

def fyStep (st : ℤ × List ℕ) (i : ℕ) : ℤ × List ℕ :=
  let s' := lcg st.1
  ((s' : ℤ), fySwap st.2 i (jIndex s' i))

/-- The shuffled permutation `p` produced inside `seed(value)`:
`p = [0, …, 255]`, then `for (let i = 255; i > 0; i--)` swap `p[i]` with
`p[j]`. -/
def pTable (value : ℤ) : List ℕ :=
  (((List.range 255).map (fun k => 255 - k)).foldl fyStep (value, List.range 256)).2

/-- The 12 cube-edge gradient vectors `grad3`. -/
def grad3 : List (ℤ × ℤ × ℤ) :=
  [(1, 1, 0), (-1, 1, 0), (1, -1, 0), (-1, -1, 0),
   (1, 0, 1), (-1, 0, 1), (1, 0, -1), (-1, 0, -1),
   (0, 1, 1), (0, -1, 1), (0, 1, -1), (0, -1, -1)]

/-- Module-level mutable state of `noise.ts`: the doubled permutation
table `perm` (a `Uint8Array(512)`) and the gradient lookup `gradP`
(an `Array(512)`). -/
@[ext] structure NoiseState where
  perm : List ℕ
  gradP : List (ℤ × ℤ × ℤ)

/-- Models `seed(value)`: rebuild `p`, then
`for (let i = 0; i < 512; i++) { perm[i] = p[i & 255]; gradP[i] = grad3[perm[i] % 12]; }` —
an in-place overwrite of every entry of both tables. -/
def seed (st : NoiseState) (value : ℤ) : NoiseState :=
  (List.range 512).foldl (fun acc i =>
    { perm := acc.perm.set i ((pTable value).getD (i % 256) 0),
      gradP := acc.gradP.set i (grad3.getD ((pTable value).getD (i % 256) 0 % 12) (0, 0, 0)) }) st

/-- The value `perm` holds after `seed value`, as a pure table. -/
def permTable (value : ℤ) : List ℕ :=
  (List.range 512).map (fun i => (pTable value).getD (i % 256) 0)

/-- The value `gradP` holds after `seed value`, as a pure table. -/
def gradPTable (value : ℤ) : List (ℤ × ℤ × ℤ) :=
  (List.range 512).map (fun i => grad3.getD ((pTable value).getD (i % 256) 0 % 12) (0, 0, 0))

/-! ## Simplex noise: sampling (`simplex3`) -/

/-- The 3D simplex noise `simplex3`, a pure function of the current tables and the
sample point (real-valued arithmetic). -/
noncomputable def simplex3 (st : NoiseState) (x y z : ℝ) : ℝ :=
  let F3 : ℝ := 1 / 3
  let G3 : ℝ := 1 / 6
  let s := (x + y + z) * F3
  let i : ℤ := ⌊x + s⌋
  let j : ℤ := ⌊y + s⌋
  let k : ℤ := ⌊z + s⌋
  let t := (i + j + k : ℝ) * G3
  let x0 := x - ((i : ℝ) - t)
  let y0 := y - ((j : ℝ) - t)
  let z0 := z - ((k : ℝ) - t)
  let o : ℕ × ℕ × ℕ × ℕ × ℕ × ℕ :=
    if x0 ≥ y0 then
      if y0 ≥ z0 then (1, 0, 0, 1, 1, 0)
      else if x0 ≥ z0 then (1, 0, 0, 1, 0, 1)
      else (0, 0, 1, 1, 0, 1)
    else
      if y0 < z0 then (0, 0, 1, 0, 1, 1)
      else if x0 < z0 then (0, 1, 0, 0, 1, 1)
      else (0, 1, 0, 1, 1, 0)
  let i1 := o.1
  let j1 := o.2.1
  let k1 := o.2.2.1
  let i2 := o.2.2.2.1
  let j2 := o.2.2.2.2.1
  let k2 := o.2.2.2.2.2
  let x1 := x0 - (i1 : ℝ) + G3
  let y1 := y0 - (j1 : ℝ) + G3
  let z1 := z0 - (k1 : ℝ) + G3
  let x2 := x0 - (i2 : ℝ) + 2 * G3
  let y2 := y0 - (j2 : ℝ) + 2 * G3
  let z2 := z0 - (k2 : ℝ) + 2 * G3
  let x3 := x0 - 1 + 3 * G3
  let y3 := y0 - 1 + 3 * G3
  let z3 := z0 - 1 + 3 * G3
  let ii := (i % 256).toNat
  let jj := (j % 256).toNat
  let kk := (k % 256).toNat
  let g0 := st.gradP.getD (ii + st.perm.getD (jj + st.perm.getD kk 0) 0) (0, 0, 0)
  let g1 := st.gradP.getD (ii + i1 + st.perm.getD (jj + j1 + st.perm.getD (kk + k1) 0) 0) (0, 0, 0)
  let g2 := st.gradP.getD (ii + i2 + st.perm.getD (jj + j2 + st.perm.getD (kk + k2) 0) 0) (0, 0, 0)
  let g3v := st.gradP.getD (ii + 1 + st.perm.getD (jj + 1 + st.perm.getD (kk + 1) 0) 0) (0, 0, 0)
  let t0 := 0.6 - x0 * x0 - y0 * y0 - z0 * z0
  let n0 := if t0 ≥ 0 then (t0 * t0) * (t0 * t0) * ((g0.1 : ℝ) * x0 + (g0.2.1 : ℝ) * y0 + (g0.2.2 : ℝ) * z0) else 0
  let t1 := 0.6 - x1 * x1 - y1 * y1 - z1 * z1
  let n1 := if t1 ≥ 0 then (t1 * t1) * (t1 * t1) * ((g1.1 : ℝ) * x1 + (g1.2.1 : ℝ) * y1 + (g1.2.2 : ℝ) * z1) else 0
  let t2 := 0.6 - x2 * x2 - y2 * y2 - z2 * z2
  let n2 := if t2 ≥ 0 then (t2 * t2) * (t2 * t2) * ((g2.1 : ℝ) * x2 + (g2.2.1 : ℝ) * y2 + (g2.2.2 : ℝ) * z2) else 0
  let t3 := 0.6 - x3 * x3 - y3 * y3 - z3 * z3
  let n3 := if t3 ≥ 0 then (t3 * t3) * (t3 * t3) * ((g3v.1 : ℝ) * x3 + (g3v.2.1 : ℝ) * y3 + (g3v.2.2 : ℝ) * z3) else 0
  32 * (n0 + n1 + n2 + n3)

/-! ## Plasma (`src/src/experiments/plasma/Plasma.tsx`) -/

/-- Models `plasmaValue(x, y, time, scale)`: five layered sine waves, normalised
by `(value + 5) / 10`. -/
noncomputable def plasmaValue (x y time scale : ℝ) : ℝ :=
  let s := scale / 10
  let v1 := Real.sin (x * s * 0.3 + time)
  let v2 := Real.sin (y * s * 0.5 + time * 1.3)
  let v3 := Real.sin ((x * s + y * s) * 0.3 + time * 0.7)
  let cx := x * s - 4
  let cy := y * s - 4
  let v4 := Real.sin (Real.sqrt (cx * cx + cy * cy) * 0.5 + time)
  let cx2 := x * s + 2
  let cy2 := y * s - 2
  let v5 := Real.sin (Real.sqrt (cx2 * cx2 + cy2 * cy2) * 0.4 - time * 1.2)
  (v1 + v2 + v3 + v4 + v5 + 5) / 10

/-! ## Row segment batching

The inner loop of `plasmaElements` (Plasma.tsx lines 509–536; the same
accumulator loop appears in `fractalElements`, FractalExplorer.tsx lines
143–180, keyed on the colour instead of the colour index): walk the row
left to right keeping `currentText`/`currentColorIdx` (initially `""` and
`-1`), flush the accumulator when the colour index changes, and flush the
final accumulator after the loop. -/

def batchAux : List (Char × ℤ) → List Char → ℤ → List (List Char × ℤ)
  | [], currentText, currentColorIdx =>
      if currentText.isEmpty then [] else [(currentText, currentColorIdx)]
  | (char, colorIdx) :: rest, currentText, currentColorIdx =>
      if colorIdx = currentColorIdx then
        batchAux rest (currentText ++ [char]) currentColorIdx
      else
        if currentText.isEmpty then
          batchAux rest [char] colorIdx
        else
          (currentText, currentColorIdx) :: batchAux rest [char] colorIdx

/-- Batch one row of per-cell `(glyph, colorIndex)` pairs into segments. -/
def batchSegments (cells : List (Char × ℤ)) : List (List Char × ℤ) :=
  batchAux cells [] (-1)

/-! ## Game of Life (`src/src/experiments/life/simulation.ts`) -/

/-- The type `Grid = boolean[][]`, row-major. -/
def Grid : Type := List (List Bool)

/-- Read `grid[y]?.[x]`, where a missing row or cell is falsy, and a
negative index (never produced by the callers, but expressible) reads
`undefined`, hence dead. -/
def getCell (grid : Grid) (y x : ℤ) : Bool :=
  if 0 ≤ y ∧ 0 ≤ x then
    ((List.getD (α := List Bool) grid y.toNat []).getD x.toNat false)
  else false

def gridHeight (grid : Grid) : ℕ := List.length (α := List Bool) grid

def gridWidth (grid : Grid) : ℕ :=
  (List.getD (α := List Bool) grid 0 []).length

/-- Models `createGrid(width, height)`: an all-dead height×width grid. -/
def createGrid (width height : ℕ) : Grid :=
  (List.range height).map (fun _ => (List.range width).map (fun _ => false))

/-- The eight Moore-neighbourhood offsets `(dx, dy)` in the loop order of
`countNeighbors` (outer `dy`, inner `dx`, skipping `(0, 0)`). -/
def neighborOffsets : List (ℤ × ℤ) :=
  [(-1, -1), (0, -1), (1, -1), (-1, 0), (1, 0), (-1, 1), (0, 1), (1, 1)]

/-- One neighbour probe of `countNeighbors`: wrap the offset coordinate
toroidally (`(n + size) % size`, whose operand is non-negative here, so
the JS remainder is the mathematical mod) or skip out-of-bounds cells. -/
def neighborAlive (grid : Grid) (x y : ℤ) (wrap : Bool) (d : ℤ × ℤ) : Bool :=
  let width : ℤ := gridWidth grid
  let height : ℤ := gridHeight grid
  let nx := x + d.1
  let ny := y + d.2
  if wrap then
    getCell grid ((ny + height) % height) ((nx + width) % width)
  else
    if nx < 0 ∨ nx ≥ width ∨ ny < 0 ∨ ny ≥ height then false
    else getCell grid ny nx

/-- Models `countNeighbors(grid, x, y, wrap)`. -/
def countNeighbors (grid : Grid) (x y : ℤ) (wrap : Bool) : ℕ :=
  (neighborOffsets.map (fun d => if neighborAlive grid x y wrap d then 1 else 0)).sum

/-- Models `step(grid, wrap)`: build the full next generation from a read-only
snapshot (the source allocates `createGrid` and assigns every cell of it
exactly once from `grid`; we build the same grid positionally). -/
def step (grid : Grid) (wrap : Bool) : Grid :=
  (List.range (gridHeight grid)).map (fun (y : ℕ) =>
    (List.range (gridWidth grid)).map (fun (x : ℕ) =>
      let alive := getCell grid (y : ℤ) (x : ℤ)
      let neighbors := countNeighbors grid (x : ℤ) (y : ℤ) wrap
      if alive then decide (neighbors = 2 ∨ neighbors = 3)
      else decide (neighbors = 3)))

/-- Write one cell of the (already copied) grid; `List.set` drops
out-of-range writes, which the guard in `placePattern` rules out anyway. -/
def setCell (grid : Grid) (y x : ℕ) (v : Bool) : Grid :=
  List.set (α := List Bool) grid y ((List.getD (α := List Bool) grid y []).set x v)

/-- Length of row `k` (0 when the row does not exist). -/
def rowLen (g : Grid) (k : ℕ) : ℕ :=
  (List.getD (α := List Bool) g k []).length

/-- The body of `placePattern`'s double loop for one pattern cell
`(px, py)`: compute the target `(x, y)` and write it if in bounds
(bounds taken from the input grid's dimensions). -/
def placeCell (width height : ℕ) (pattern : List (List Bool)) (offsetX offsetY : ℤ)
    (cur : Grid) (py px : ℕ) : Grid :=
  if 0 ≤ offsetX + (px : ℤ) ∧ offsetX + (px : ℤ) < width
      ∧ 0 ≤ offsetY + (py : ℤ) ∧ offsetY + (py : ℤ) < height then
    setCell cur (offsetY + (py : ℤ)).toNat (offsetX + (px : ℤ)).toNat
      ((pattern.getD py []).getD px false)
  else cur

/-- Models `placePattern(grid, pattern, offsetX, offsetY)`: copy the grid, then
loop over the pattern rows and cells, clipping out-of-bounds targets. -/
def placePattern (grid : Grid) (pattern : List (List Bool)) (offsetX offsetY : ℤ) : Grid :=
  (List.range pattern.length).foldl (fun cur py =>
    (List.range (pattern.getD py []).length).foldl (fun cur2 px =>
      placeCell (gridWidth grid) (gridHeight grid) pattern offsetX offsetY cur2 py px) cur) grid

/-- A height×width grid with a single live cell at column `cx`, row `cy`
(a concrete test grid for the boundary-policy property). -/
def singleGrid (width height cx cy : ℕ) : Grid :=
  (List.range height).map (fun y =>
    (List.range width).map (fun x => decide (x = cx ∧ y = cy)))

/-! ## Fractal escape time (`src/unnamed/part_003`, `calculatePoint`)

The `while (x2 + y2 <= 4 && iterations < maxIterations)` loop, run on
exact rationals (the claims sample it at small integer points where
double arithmetic is exact); the fuel is `maxIterations - iterations`.
Returns (iterations, final x2, final y2). -/

def escapeLoop (cx cy : ℚ) : ℚ → ℚ → ℕ → ℕ × ℚ × ℚ
  | x, y, 0 => (0, x * x, y * y)
  | x, y, fuel + 1 =>
      if x * x + y * y ≤ 4 then
        let y' := 2 * x * y + cy
        let x' := x * x - y * y + cx
        let r := escapeLoop cx cy x' y' fuel
        (r.1 + 1, r.2)
      else (0, x * x, y * y)

/-- Result record of `calculatePoint` (the smooth-colouring value is
real-valued, see `smoothValue`). -/
structure FractalPixel where
  iterations : ℕ
  escaped : Bool
  finalX2 : ℚ
  finalY2 : ℚ

/-- Models `calculatePoint(x0, y0, maxIterations, juliaMode, juliaReal, juliaImag)`. -/
def calculatePoint (x0 y0 : ℚ) (maxIterations : ℕ) (juliaMode : Bool)
    (juliaReal juliaImag : ℚ) : FractalPixel :=
  let start : ℚ × ℚ × ℚ × ℚ :=
    if juliaMode then (x0, y0, juliaReal, juliaImag) else (0, 0, x0, y0)
  let r := escapeLoop start.2.2.1 start.2.2.2 start.1 start.2.1 maxIterations
  { iterations := r.1
    escaped := decide (r.1 < maxIterations)
    finalX2 := r.2.1
    finalY2 := r.2.2 }

/-- The smooth-colouring value computed from the loop results:
`iterations + 1 - log(log(x2 + y2) / 2 / log 2) / log 2` when the point
escaped after at least one iteration, else the iteration count. -/
noncomputable def smoothValue (p : FractalPixel) : ℝ :=
  if p.escaped ∧ 0 < p.iterations then
    let logZn := Real.log ((p.finalX2 + p.finalY2 : ℚ) : ℝ) / 2
    let nu := Real.log (logZn / Real.log 2) / Real.log 2
    (p.iterations : ℝ) + 1 - nu
  else (p.iterations : ℝ)

/-! ## Flow-field quantizers (`src/src/experiments/flow/FlowField.tsx`)

`DOTS` has 5 entries and `GRAY_PALETTE` has 6; `0.01` is an exact small
decimal, modelled as `1/100` over `ℚ`. -/

/-- Models `noiseToDotIndex(value)`: bucket then clamp into `[0, DOTS.length-1]`. -/
def noiseToDotIndex (value : ℚ) : ℤ :=
  let index := ⌊(value + 1) / 2 * (5 - 1 / 100)⌋
  max 0 (min (5 - 1) index)

/-- Models `noiseToGrayIndex(noise)`: bucket, with no clamp. -/
def noiseToGrayIndex (noise : ℚ) : ℤ :=
  ⌊(noise + 1) / 2 * (6 - 1 / 100)⌋

/-! ## Parameter adjustment (keyboard handlers)

`Plasma.tsx` (lines 271–278): arrow keys move the focused slider,
`scale` by ±1 clamped to `[1, 20]`, `speed` by ±10 clamped to `[10, 200]`.
`FractalExplorer.tsx` (lines 115–139): `<`/`>` move the focused slider,
`maxIterations` by ±20 clamped to `[20, 500]`, `juliaReal`/`juliaImag`
by ±0.05 clamped to `[-2, 2]`. -/

structure Params where
  scale : ℚ
  speed : ℚ
  maxIterations : ℚ
  juliaReal : ℚ
  juliaImag : ℚ

inductive AdjustEvent
  | scaleLeft | scaleRight | speedLeft | speedRight
  | iterDown | iterUp | juliaRealDown | juliaRealUp | juliaImagDown | juliaImagUp

def applyEvent (p : Params) : AdjustEvent → Params
  | .scaleLeft => { p with scale := max 1 (min 20 (p.scale + (-1))) }
  | .scaleRight => { p with scale := max 1 (min 20 (p.scale + 1)) }
  | .speedLeft => { p with speed := max 10 (min 200 (p.speed + (-1) * 10)) }
  | .speedRight => { p with speed := max 10 (min 200 (p.speed + 1 * 10)) }
  | .iterDown => { p with maxIterations := max 20 (p.maxIterations - 20) }
  | .iterUp => { p with maxIterations := min 500 (p.maxIterations + 20) }
  | .juliaRealDown => { p with juliaReal := max (-2) (p.juliaReal - 1 / 20) }
  | .juliaRealUp => { p with juliaReal := min 2 (p.juliaReal + 1 / 20) }
  | .juliaImagDown => { p with juliaImag := max (-2) (p.juliaImag - 1 / 20) }
  | .juliaImagUp => { p with juliaImag := min 2 (p.juliaImag + 1 / 20) }

def applyEvents (p : Params) (events : List AdjustEvent) : Params :=
  events.foldl applyEvent p

/-- All five adjustable parameters inside their declared ranges. -/
abbrev inRange (p : Params) : Prop :=
  1 ≤ p.scale ∧ p.scale ≤ 20 ∧ 10 ≤ p.speed ∧ p.speed ≤ 200 ∧
    20 ≤ p.maxIterations ∧ p.maxIterations ≤ 500 ∧
    -2 ≤ p.juliaReal ∧ p.juliaReal ≤ 2 ∧ -2 ≤ p.juliaImag ∧ p.juliaImag ≤ 2

/-! # Theorems -/

/-! ## List helper lemmas -/

theorem List.getD_set {α : Type*} (l : List α) (n m : ℕ) (a d : α) :
    (l.set n a).getD m d = if n = m ∧ n < l.length then a else l.getD m d := by
  by_cases h : n = m
  · subst h
    by_cases hl : n < l.length
    · simp [List.getD_eq_getElem?_getD, List.getElem?_set_self, hl,
        List.getElem?_eq_getElem, hl]
    · simp [List.getD_eq_getElem?_getD, List.set_eq_of_length_le (Nat.le_of_not_lt hl), hl]
  · simp [List.getD_eq_getElem?_getD, List.getElem?_set_ne h, h]

theorem List.getD_set_self {α : Type*} (l : List α) (n : ℕ) (a d : α)
    (h : n < l.length) : (l.set n a).getD n d = a := by
  simp [List.getD_set, h]

/-- Replacing two positions of a list by each other's values is a permutation
of the list (this is the array-swap used by the Fisher–Yates shuffle). -/
theorem List.perm_cons_set {α : Type*} (xs : List α) (k : ℕ) (hk : k < xs.length) (x : α) :
    List.Perm (xs[k] :: xs.set k x) (x :: xs) := by
  induction xs generalizing k with
  | nil => simp at hk
  | cons y ys ih =>
      cases k with
      | zero => simpa using List.Perm.swap x y ys
      | succ k =>
          have hk' : k < ys.length := by simpa using hk
          have h1 : List.Perm (ys[k] :: y :: ys.set k x) (y :: ys[k] :: ys.set k x) :=
            List.Perm.swap y ys[k] (ys.set k x)
          have h2 : List.Perm (y :: ys[k] :: ys.set k x) (y :: x :: ys) :=
            List.Perm.cons y (ih k hk')
          have h3 : List.Perm (y :: x :: ys) (x :: y :: ys) := List.Perm.swap x y ys
          simpa using (h1.trans h2).trans h3

theorem List.perm_set_set {α : Type*} (l : List α) (i j : ℕ)
    (hi : i < l.length) (hj : j < l.length) :
    List.Perm ((l.set i l[j]).set j l[i]) l := by
  by_cases hij : i = j
  · subst hij
    have : (l.set i l[i]).set i l[i] = l.set i l[i] := by
      simp [List.set_set]
    rw [this]
    have : l.set i l[i] = l := by
      apply List.ext_getElem?
      intro m
      rw [List.getElem?_set]
      split
      · next h =>
          subst h
          simp [hi, List.getElem?_eq_getElem hi]
      · rfl
    rw [this]
  · have hlen : j < (l.set i l[j]).length := by simpa using hj
    have hval : (l.set i l[j])[j] = l[j] := by
      rw [List.getElem_set_ne hij]
    -- view the second set through `perm_cons_set`
    have h1 : List.Perm ((l.set i l[j])[j] :: (l.set i l[j]).set j l[i])
        (l[i] :: l.set i l[j]) := List.perm_cons_set _ j hlen l[i]
    have h2 : List.Perm (l[i] :: l.set i l[j]) (l[j] :: l) := by
      simpa using List.perm_cons_set l i hi l[j] |>.symm.trans
        (List.Perm.refl _) |>.symm
    -- combine: l[j] :: (set-set) ~ l[i] :: set i l[j] ~ l[j] :: l
    have h3 : List.Perm (l[j] :: (l.set i l[j]).set j l[i]) (l[j] :: l) := by
      rw [hval] at h1
      exact h1.trans h2
    exact (List.Perm.cons_inv h3)

/-! ## Facts about `fl53` -/

theorem fl53Nat_of_lt {n : ℕ} (h : n < 2 ^ 53) : fl53Nat n = n := by
  rw [fl53Nat, if_pos h]

/-- Integers below `2 ^ 53` in magnitude are exactly representable. -/
theorem fl53_eq_self {x : ℤ} (h1 : -2 ^ 53 < x) (h2 : x < 2 ^ 53) : fl53 x = x := by
  have habs : x.natAbs < 2 ^ 53 := by omega
  rw [fl53, fl53Nat_of_lt habs]
  omega

theorem fl53Nat_even_of_le {n : ℕ} (h : 2 ^ 53 ≤ n) :
    2 ∣ fl53Nat n ∧ 2 ^ 53 ≤ fl53Nat n := by
  have hn0 : n ≠ 0 := by positivity
  rw [fl53Nat, if_neg (by omega)]
  have hlog : 53 ≤ Nat.log 2 n := by
    rw [← Nat.pow_le_iff_le_log (by norm_num) hn0]
    exact h
  set e := Nat.log 2 n - 52 with he
  have he1 : 1 ≤ e := by omega
  have hpow : 2 ^ (52 + e) ≤ n := by
    have : 52 + e = Nat.log 2 n := by omega
    rw [this]
    exact Nat.pow_log_le_self 2 hn0
  have hq : 2 ^ 52 ≤ n / 2 ^ e := by
    rw [Nat.le_div_iff_mul_le (Nat.pos_pow_of_pos e (by norm_num))]
    calc 2 ^ 52 * 2 ^ e = 2 ^ (52 + e) := by rw [← pow_add]
    _ ≤ n := hpow
  set q := n / 2 ^ e with hqd
  set r := n % 2 ^ e with hrd
  set q' := if r < 2 ^ (e - 1) then q
      else if 2 ^ (e - 1) < r then q + 1
      else if q % 2 = 0 then q else q + 1 with hq'd
  have hq'q : q ≤ q' := by
    rw [hq'd]
    split
    · exact le_refl q
    split
    · omega
    split
    · exact le_refl q
    · omega
  constructor
  · exact Dvd.dvd.mul_left (dvd_pow_self 2 (by omega)) q'
  · calc (2 : ℕ) ^ 53 = 2 ^ (52 + 1) := by norm_num
    _ ≤ 2 ^ (52 + e) := Nat.pow_le_pow_right (by norm_num) (by omega)
    _ = 2 ^ 52 * 2 ^ e := by rw [pow_add]
    _ ≤ q' * 2 ^ e := Nat.mul_le_mul_right _ (le_trans hq hq'q)

/-- Rounding an integer of magnitude `≥ 2 ^ 53` produces an even result of
magnitude `≥ 2 ^ 53`. -/
theorem fl53_even_of_le {x : ℤ} (h : 2 ^ 53 ≤ x ∨ x ≤ -2 ^ 53) :
    2 ∣ fl53 x ∧ (2 ^ 53 ≤ fl53 x ∨ fl53 x ≤ -2 ^ 53) := by
  have habs : 2 ^ 53 ≤ x.natAbs := by omega
  obtain ⟨hdvd, hmag⟩ := fl53Nat_even_of_le habs
  rw [fl53]
  split
  · constructor
    · exact Dvd.dvd.neg_right (Int.natCast_dvd_natCast.mpr hdvd)
    · right
      omega
  · constructor
    · exact Int.natCast_dvd_natCast.mpr hdvd
    · left
      omega

/-! ## C4: plasma normalisation -/

theorem sin_sum5_div_bounds (a b c d e : ℝ)
    (ha1 : -1 ≤ a) (ha2 : a ≤ 1) (hb1 : -1 ≤ b) (hb2 : b ≤ 1)
    (hc1 : -1 ≤ c) (hc2 : c ≤ 1) (hd1 : -1 ≤ d) (hd2 : d ≤ 1)
    (he1 : -1 ≤ e) (he2 : e ≤ 1) :
    0 ≤ (a + b + c + d + e + 5) / 10 ∧ (a + b + c + d + e + 5) / 10 ≤ 1 :=
  ⟨by linarith, by linarith⟩

/-- C4: for every real `x`, `y`, `t` and scale, `plasmaValue` — the sum of
five sine terms normalised as `(sum + 5) / 10` — lies in `[0, 1]`. -/
theorem plasmaValue_mem_unitInterval (x y time scale : ℝ) :
    0 ≤ plasmaValue x y time scale ∧ plasmaValue x y time scale ≤ 1 := by
  unfold plasmaValue
  exact sin_sum5_div_bounds _ _ _ _ _
    (Real.neg_one_le_sin _) (Real.sin_le_one _)
    (Real.neg_one_le_sin _) (Real.sin_le_one _)
    (Real.neg_one_le_sin _) (Real.sin_le_one _)
    (Real.neg_one_le_sin _) (Real.sin_le_one _)
    (Real.neg_one_le_sin _) (Real.sin_le_one _)

/-! ## C8: quantizer index ranges -/

/-- C8 (counterexample): `noiseToGrayIndex` is *not* clamped.  At the
slightly-out-of-range noise value `-1.01` the computed index is `-1`,
outside `[0, 5]`, so the subsequent `GRAY_PALETTE_RGBA[colorIdx]!` lookup
would read outside the table. -/
theorem noiseToGrayIndex_not_clamped :
    noiseToGrayIndex (-101 / 100) = -1 ∧ ¬ (0 ≤ noiseToGrayIndex (-101 / 100)) := by
  have h : noiseToGrayIndex (-101 / 100) = -1 := by
    unfold noiseToGrayIndex
    norm_num
  exact ⟨h, by rw [h]; norm_num⟩

/-- C8 (amended): `noiseToDotIndex` clamps its bucket index into `[0, 4]`
for every input; `noiseToGrayIndex` applies no clamp, and its index lies
in `[0, 5]` for noise in the nominal `[-1, 1]` range. -/
theorem quantizer_index_ranges :
    (∀ v : ℚ, 0 ≤ noiseToDotIndex v ∧ noiseToDotIndex v ≤ 4) ∧
    (∀ v : ℚ, -1 ≤ v → v ≤ 1 →
      0 ≤ noiseToGrayIndex v ∧ noiseToGrayIndex v ≤ 5) := by
  constructor
  · intro v
    unfold noiseToDotIndex
    refine ⟨le_max_left _ _, max_le (by norm_num) ?_⟩
    exact le_trans (min_le_left _ _) (by norm_num)
  · intro v h1 h2
    unfold noiseToGrayIndex
    have harg1 : (0 : ℚ) ≤ (v + 1) / 2 * (6 - 1 / 100) := by
      apply mul_nonneg
      · linarith
      · norm_num
    have harg2 : (v + 1) / 2 * (6 - 1 / 100) < 6 := by
      nlinarith
    constructor
    · exact Int.floor_nonneg.mpr harg1
    · have : ⌊(v + 1) / 2 * (6 - 1 / 100)⌋ < 6 := Int.floor_lt.mpr (by exact_mod_cast harg2)
      omega

theorem quantizer_index_ranges_witness :
    (-1 : ℚ) ≤ 0 ∧ (0 : ℚ) ≤ 1 ∧
      (0 ≤ noiseToGrayIndex 0 ∧ noiseToGrayIndex 0 ≤ 5) :=
  ⟨by decide, by decide, quantizer_index_ranges.2 0 (by decide) (by decide)⟩

/-! ## C10: parameter clamping -/

theorem applyEvent_inRange (p : Params) (e : AdjustEvent) (hp : inRange p) :
    inRange (applyEvent p e) := by
  obtain ⟨h1, h2, h3, h4, h5, h6, h7, h8, h9, h10⟩ := hp
  cases e with
  | scaleLeft =>
      exact ⟨le_max_left _ _, max_le (by norm_num) (min_le_left _ _),
        h3, h4, h5, h6, h7, h8, h9, h10⟩
  | scaleRight =>
      exact ⟨le_max_left _ _, max_le (by norm_num) (min_le_left _ _),
        h3, h4, h5, h6, h7, h8, h9, h10⟩
  | speedLeft =>
      exact ⟨h1, h2, le_max_left _ _, max_le (by norm_num) (min_le_left _ _),
        h5, h6, h7, h8, h9, h10⟩
  | speedRight =>
      exact ⟨h1, h2, le_max_left _ _, max_le (by norm_num) (min_le_left _ _),
        h5, h6, h7, h8, h9, h10⟩
  | iterDown =>
      exact ⟨h1, h2, h3, h4, le_max_left _ _, max_le (by norm_num) (by linarith),
        h7, h8, h9, h10⟩
  | iterUp =>
      exact ⟨h1, h2, h3, h4, le_min (by norm_num) (by linarith), min_le_left _ _,
        h7, h8, h9, h10⟩
  | juliaRealDown =>
      exact ⟨h1, h2, h3, h4, h5, h6, le_max_left _ _,
        max_le (by norm_num) (by linarith), h9, h10⟩
  | juliaRealUp =>
      exact ⟨h1, h2, h3, h4, h5, h6, le_min (by norm_num) (by linarith),
        min_le_left _ _, h9, h10⟩
  | juliaImagDown =>
      exact ⟨h1, h2, h3, h4, h5, h6, h7, h8, le_max_left _ _,
        max_le (by norm_num) (by linarith)⟩
  | juliaImagUp =>
      exact ⟨h1, h2, h3, h4, h5, h6, h7, h8, le_min (by norm_num) (by linarith),
        min_le_left _ _⟩

/-- C10: starting from any in-range parameter set, any sequence of
keyboard adjustment events keeps `scale` in `[1, 20]`, `speed` in
`[10, 200]`, `maxIterations` in `[20, 500]` and the Julia constants in
`[-2, 2]`; and an adjustment that would exceed a bound stores the bound
itself. -/
theorem params_clamped (p : Params) (events : List AdjustEvent) (hp : inRange p) :
    inRange (applyEvents p events) ∧
    (∀ q : Params, 19 < q.scale → (applyEvent q .scaleRight).scale = 20) ∧
    (∀ q : Params, q.scale < 2 → (applyEvent q .scaleLeft).scale = 1) ∧
    (∀ q : Params, 190 < q.speed → (applyEvent q .speedRight).speed = 200) ∧
    (∀ q : Params, q.speed < 20 → (applyEvent q .speedLeft).speed = 10) ∧
    (∀ q : Params, 480 < q.maxIterations → (applyEvent q .iterUp).maxIterations = 500) ∧
    (∀ q : Params, q.maxIterations < 40 → (applyEvent q .iterDown).maxIterations = 20) ∧
    (∀ q : Params, 2 ≤ q.juliaReal → (applyEvent q .juliaRealUp).juliaReal = 2) ∧
    (∀ q : Params, q.juliaReal ≤ -2 → (applyEvent q .juliaRealDown).juliaReal = -2) ∧
    (∀ q : Params, 2 ≤ q.juliaImag → (applyEvent q .juliaImagUp).juliaImag = 2) ∧
    (∀ q : Params, q.juliaImag ≤ -2 → (applyEvent q .juliaImagDown).juliaImag = -2) := by
  refine ⟨?_, ?_, ?_, ?_, ?_, ?_, ?_, ?_, ?_, ?_, ?_⟩
  · unfold applyEvents
    induction events generalizing p with
    | nil => exact hp
    | cons e rest ih => exact ih _ (applyEvent_inRange p e hp)
  · intro q hq
    simp only [applyEvent]
    rw [min_eq_left (by linarith), max_eq_right (by norm_num)]
  · intro q hq
    simp only [applyEvent]
    rw [min_eq_right (by linarith), max_eq_left (by linarith)]
  · intro q hq
    simp only [applyEvent]
    rw [min_eq_left (by linarith), max_eq_right (by norm_num)]
  · intro q hq
    simp only [applyEvent]
    rw [min_eq_right (by linarith), max_eq_left (by linarith)]
  · intro q hq
    simp only [applyEvent]
    rw [min_eq_left (by linarith)]
  · intro q hq
    simp only [applyEvent]
    rw [max_eq_left (by linarith)]
  · intro q hq
    simp only [applyEvent]
    rw [min_eq_left (by linarith)]
  · intro q hq
    simp only [applyEvent]
    rw [max_eq_left (by linarith)]
  · intro q hq
    simp only [applyEvent]
    rw [min_eq_left (by linarith)]
  · intro q hq
    simp only [applyEvent]
    rw [max_eq_left (by linarith)]

theorem params_clamped_witness :
    inRange ⟨4, 100, 100, -1, 1⟩ ∧
      inRange (applyEvents ⟨4, 100, 100, -1, 1⟩
        [.scaleRight, .scaleRight, .speedLeft, .juliaRealUp]) :=
  ⟨by decide,
    (params_clamped ⟨4, 100, 100, -1, 1⟩
      [.scaleRight, .scaleRight, .speedLeft, .juliaRealUp] (by decide)).1⟩

/-! ## C1: segment batching round-trip -/

theorem batchAux_join (cells : List (Char × ℤ)) :
    ∀ (currentText : List Char) (currentColorIdx : ℤ),
      ((batchAux cells currentText currentColorIdx).map Prod.fst).flatten =
        currentText ++ cells.map Prod.fst := by
  induction cells with
  | nil =>
      intro currentText currentColorIdx
      by_cases h : currentText.isEmpty
      · simp [batchAux, h, List.isEmpty_iff.mp h]
      · simp [batchAux, h]
  | cons cell rest ih =>
      intro currentText currentColorIdx
      obtain ⟨char, colorIdx⟩ := cell
      by_cases hc : colorIdx = currentColorIdx
      · simp [batchAux, hc, ih]
      · by_cases he : currentText.isEmpty
        · simp [batchAux, hc, he, ih, List.isEmpty_iff.mp he]
        · simp [batchAux, hc, he, ih]

theorem batchAux_chain (cells : List (Char × ℤ)) :
    ∀ (currentText : List Char) (currentColorIdx : ℤ), currentText ≠ [] →
      (∃ t rest, batchAux cells currentText currentColorIdx = (t, currentColorIdx) :: rest) ∧
      List.Chain' (fun a b : List Char × ℤ => a.2 ≠ b.2)
        (batchAux cells currentText currentColorIdx) := by
  induction cells with
  | nil =>
      intro currentText currentColorIdx hne
      rw [batchAux, if_neg (by simpa using hne)]
      exact ⟨⟨currentText, [], rfl⟩, List.chain'_singleton _⟩
  | cons cell rest ih =>
      intro currentText currentColorIdx hne
      obtain ⟨char, colorIdx⟩ := cell
      by_cases hc : colorIdx = currentColorIdx
      · rw [batchAux, if_pos hc]
        subst hc
        exact ih (currentText ++ [char]) colorIdx (by simp)
      · rw [batchAux, if_neg hc, if_neg (by simpa using hne)]
        obtain ⟨⟨t, rest', hr⟩, hchain⟩ := ih [char] colorIdx (by simp)
        refine ⟨⟨currentText, _, rfl⟩, ?_⟩
        rw [hr]
        rw [hr] at hchain
        exact List.Chain'.cons (by simpa using Ne.symm hc) hchain

/-- C1: batching a row of per-cell `(glyph, colorIndex)` pairs produces
segments whose concatenated text reproduces the original glyph sequence
exactly, and no two consecutive segments share a colorIndex. -/
theorem batchSegments_roundtrip (cells : List (Char × ℤ)) :
    ((batchSegments cells).map Prod.fst).flatten = cells.map Prod.fst ∧
    List.Chain' (fun a b : List Char × ℤ => a.2 ≠ b.2) (batchSegments cells) := by
  constructor
  · simpa using batchAux_join cells [] (-1)
  · unfold batchSegments
    cases cells with
    | nil => simp [batchAux]
    | cons cell rest =>
        obtain ⟨char, colorIdx⟩ := cell
        by_cases hc : colorIdx = -1
        · rw [batchAux, if_pos hc]
          exact (batchAux_chain rest ([] ++ [char]) (-1) (by simp)).2
        · rw [batchAux, if_neg hc, if_pos (by simp)]
          exact (batchAux_chain rest [char] colorIdx (by simp)).2

/-! ## C7: fractal escape-time boundary points -/

theorem escapeLoop_zero (fuel : ℕ) : escapeLoop 0 0 0 0 fuel = (fuel, 0, 0) := by
  induction fuel with
  | zero => norm_num [escapeLoop]
  | succ n ih => norm_num [escapeLoop, ih]

theorem escapeLoop_six (fuel : ℕ) : escapeLoop 2 0 6 0 fuel = (0, 36, 0) := by
  cases fuel with
  | zero => norm_num [escapeLoop]
  | succ n => norm_num [escapeLoop]

theorem escapeLoop_two (fuel : ℕ) : escapeLoop 2 0 0 0 (fuel + 2) = (2, 36, 0) := by
  norm_num [escapeLoop, escapeLoop_six]

/-- C7 (amended): the Mandelbrot point `(0, 0)` never escapes
(`iterations = maxIterations`, `escaped = false` for every
`maxIterations ≥ 1`); the point `(2, 0)` leaves the `|z|² > 4` radius
after **two** iterations (`|z|² = 4` exactly after one, which does not
exceed the strict threshold), so `iterations = min maxIterations 2` and
`escaped` is set only once `maxIterations ≥ 3`. -/
theorem calculatePoint_boundary (maxIterations : ℕ) (h : 1 ≤ maxIterations) :
    ((calculatePoint 0 0 maxIterations false 0 0).iterations = maxIterations ∧
      (calculatePoint 0 0 maxIterations false 0 0).escaped = false) ∧
    ((calculatePoint 2 0 maxIterations false 0 0).iterations = min maxIterations 2 ∧
      ((calculatePoint 2 0 maxIterations false 0 0).escaped = true ↔ 3 ≤ maxIterations)) := by
  refine ⟨⟨?_, ?_⟩, ?_, ?_⟩
  · simp [calculatePoint, escapeLoop_zero]
  · simp [calculatePoint, escapeLoop_zero]
  · match maxIterations, h with
    | 1, _ => norm_num [calculatePoint, escapeLoop]
    | (n + 2), _ => simp [calculatePoint, escapeLoop_two]
  · match maxIterations, h with
    | 1, _ => norm_num [calculatePoint, escapeLoop]
    | (n + 2), _ =>
        simp [calculatePoint, escapeLoop_two]
        omega

theorem calculatePoint_boundary_witness :
    1 ≤ 5 ∧
      (((calculatePoint 0 0 5 false 0 0).iterations = 5 ∧
        (calculatePoint 0 0 5 false 0 0).escaped = false) ∧
      ((calculatePoint 2 0 5 false 0 0).iterations = min 5 2 ∧
        ((calculatePoint 2 0 5 false 0 0).escaped = true ↔ 3 ≤ 5))) :=
  ⟨by decide, calculatePoint_boundary 5 (by decide)⟩

/-- C7 (counterexample): the claim "the point `(2, 0)` escapes within 1
iteration" fails: at `maxIterations = 5` the loop runs **2** iterations
before `|z|² > 4` (after one iteration `|z|² = 4`, which does not satisfy
the strict escape test `> 4`). -/
theorem calculatePoint_two_needs_two_iterations :
    (calculatePoint 2 0 5 false 0 0).iterations = 2 ∧
    ¬ ((calculatePoint 2 0 5 false 0 0).iterations ≤ 1) := by
  have h : (calculatePoint 2 0 5 false 0 0).iterations = 2 := by
    have h5 : (5 : ℕ) = 3 + 2 := rfl
    rw [calculatePoint]
    simp only [Bool.false_eq_true, if_false, h5, escapeLoop_two]
  exact ⟨h, by omega⟩

/-! ## The LCG never draws exactly `0x7fffffff`

`j = 256` (the out-of-bounds swap index) can arise only when `random()`
returns exactly `1`, i.e. when the masked LCG state equals
`0x7fffffff = 2 ^ 31 - 1`.  In exact double arithmetic this never
happens: small products are exact and the congruence
`S * 1103515245 + 12345 ≡ 2 ^ 31 - 1 (mod 2 ^ 31)` has no solution in the
exactly-representable window, while large products round to even values. -/

theorem toNat_emod_eq (a : ℤ) (h : (a % (2 ^ 31 : ℤ)).toNat = 2 ^ 31 - 1) :
    a % (2 ^ 31 : ℤ) = 2 ^ 31 - 1 := by
  have h0 : 0 ≤ a % (2 ^ 31 : ℤ) := Int.emod_nonneg _ (by norm_num)
  omega

theorem even_emod_ne (b : ℤ) (hdvd : 2 ∣ b) : b % (2 ^ 31 : ℤ) ≠ 2 ^ 31 - 1 := by
  omega

theorem even_band_emod_ne (a : ℤ) (h2 : 2 ∣ a) (hmag : 2 ^ 53 ≤ a ∨ a ≤ -2 ^ 53)
    (hb1 : -2 ^ 53 < a + 12345) (hb2 : a + 12345 < 2 ^ 53) :
    (a + 12345) % (2 ^ 31 : ℤ) ≠ 2 ^ 31 - 1 := by
  omega

theorem lcg_ne_max (S : ℤ) : lcg S ≠ 2 ^ 31 - 1 := by
  unfold lcg
  intro hcon
  replace hcon := toNat_emod_eq _ hcon
  by_cases hA : -2 ^ 53 < S * 1103515245 ∧ S * 1103515245 < 2 ^ 53
  · rw [fl53_eq_self hA.1 hA.2] at hcon
    by_cases hB : -2 ^ 53 < S * 1103515245 + 12345 ∧ S * 1103515245 + 12345 < 2 ^ 53
    · rw [fl53_eq_self hB.1 hB.2] at hcon
      -- exact-integer case: the congruence
      -- `S * 1103515245 + 12345 ≡ 2 ^ 31 - 1  (mod 2 ^ 31)` forces
      -- `S ≡ 230538014 (mod 2 ^ 31)`, impossible in the exact window
      have hdvd : (2 ^ 31 : ℤ) ∣ (S * 1103515245 + 12345 - (2 ^ 31 - 1)) :=
        ⟨(S * 1103515245 + 12345) / 2 ^ 31, by rw [← hcon, Int.emod_def]; ring⟩
      have hdvd2 : (2 ^ 31 : ℤ) ∣ 1103515245 * (S - 230538014) := by
        have heq : 1103515245 * (S - 230538014)
            = (S * 1103515245 + 12345 - (2 ^ 31 - 1)) - 2 ^ 31 * 118465261 := by
          ring
        rw [heq]
        exact dvd_sub hdvd (Dvd.intro _ rfl)
      have hcop : IsCoprime (2 ^ 31 : ℤ) 1103515245 := by
        rw [Int.isCoprime_iff_gcd_eq_one]
        norm_num
      obtain ⟨k, hk⟩ := hcop.dvd_of_dvd_mul_left hdvd2
      have hb1 : -2 ^ 53 < S * 1103515245 := hA.1
      have hb2 : S * 1103515245 < 2 ^ 53 := hA.2
      clear hcon hdvd hdvd2 hcop hA hB
      omega
    · obtain ⟨hdvd, -⟩ :=
        fl53_even_of_le (x := S * 1103515245 + 12345) (by omega)
      exact even_emod_ne _ hdvd hcon
  · obtain ⟨hdvd, hmag⟩ := fl53_even_of_le (x := S * 1103515245) (by omega)
    by_cases hB : -2 ^ 53 < fl53 (S * 1103515245) + 12345
        ∧ fl53 (S * 1103515245) + 12345 < 2 ^ 53
    · rw [fl53_eq_self hB.1 hB.2] at hcon
      exact even_band_emod_ne _ hdvd hmag hB.1 hB.2 hcon
    · obtain ⟨hdvd2, -⟩ :=
        fl53_even_of_le (x := fl53 (S * 1103515245) + 12345) (by omega)
      exact even_emod_ne _ hdvd2 hcon

theorem lcg_le (s : ℤ) : lcg s ≤ 2 ^ 31 - 1 := by
  unfold lcg
  have h1 : 0 ≤ (fl53 (fl53 (s * 1103515245) + 12345)) % (2 ^ 31) :=
    Int.emod_nonneg _ (by norm_num)
  have h2 : (fl53 (fl53 (s * 1103515245) + 12345)) % (2 ^ 31) < 2 ^ 31 :=
    Int.emod_lt_of_pos _ (by norm_num)
  omega

theorem jIndex_le (s i : ℕ) (hs : s ≤ 2 ^ 31 - 1) : jIndex s i ≤ i + 1 := by
  unfold jIndex
  calc s * (i + 1) / (2 ^ 31 - 1) ≤ (2 ^ 31 - 1) * (i + 1) / (2 ^ 31 - 1) :=
        Nat.div_le_div_right (Nat.mul_le_mul_right _ hs)
  _ = i + 1 := Nat.mul_div_cancel_left _ (by norm_num)

theorem jIndex_lt_of_lt (s i : ℕ) (hs : s < 2 ^ 31 - 1) : jIndex s i < i + 1 := by
  unfold jIndex
  rw [Nat.div_lt_iff_lt_mul (by norm_num)]
  calc s * (i + 1) < (2 ^ 31 - 1) * (i + 1) :=
        Nat.mul_lt_mul_of_lt_of_le hs (le_refl _) (by omega)
  _ = (i + 1) * (2 ^ 31 - 1) := Nat.mul_comm _ _

theorem fySwap_perm (p : List ℕ) (i j : ℕ) (hi : i < p.length) (hj : j < p.length) :
    List.Perm (fySwap p i j) p := by
  unfold fySwap
  rw [List.getD_eq_getElem p 0 hj, List.getD_eq_getElem p 0 hi]
  exact List.perm_set_set p i j hi hj

theorem foldl_fyStep_perm (L : List ℕ) (hL : ∀ i ∈ L, i ≤ 254) :
    ∀ (s : ℤ) (p : List ℕ), List.Perm p (List.range 256) →
      List.Perm ((L.foldl fyStep (s, p)).2) (List.range 256) := by
  induction L with
  | nil => intro s p hp; exact hp
  | cons i L ih =>
      intro s p hp
      have hi : i ≤ 254 := hL i (List.mem_cons_self i L)
      have hlen : p.length = 256 := by simpa using hp.length_eq
      have hj : jIndex (lcg s) i ≤ 255 :=
        le_trans (jIndex_le _ _ (lcg_le s)) (by omega)
      have hswap : List.Perm (fySwap p i (jIndex (lcg s) i)) (List.range 256) :=
        (fySwap_perm p i _ (by omega) (by omega)).trans hp
      have := ih (fun m hm => hL m (List.mem_cons_of_mem _ hm))
        ((lcg s : ℤ)) (fySwap p i (jIndex (lcg s) i)) hswap
      simpa [fyStep] using this

theorem range255_desc :
    (List.range 255).map (fun k => 255 - k)
      = 255 :: (List.range 254).map (fun k => 254 - k) := by decide

/-- The Fisher–Yates output is a permutation of `0 … 255` for **every**
integer seed: the only dangerous draw (`j = 256` at `i = 255`) needs the
first LCG output to be exactly `2 ^ 31 - 1`, which `lcg_ne_max` rules
out; all later swap indices satisfy `j ≤ i + 1 ≤ 255`. -/
theorem pTable_perm (value : ℤ) : List.Perm (pTable value) (List.range 256) := by
  unfold pTable
  rw [range255_desc, List.foldl_cons]
  have hmax : lcg value < 2 ^ 31 - 1 :=
    lt_of_le_of_ne (lcg_le value) (lcg_ne_max value)
  have hj : jIndex (lcg value) 255 < 256 := jIndex_lt_of_lt _ _ hmax
  have hswap : List.Perm (fySwap (List.range 256) 255 (jIndex (lcg value) 255))
      (List.range 256) :=
    fySwap_perm _ 255 _ (by simp) (by simp [hj])
  have hbound : ∀ i ∈ (List.range 254).map (fun k => 254 - k), i ≤ 254 := by
    intro i hi
    obtain ⟨k, -, hk⟩ := List.mem_map.mp hi
    omega
  have := foldl_fyStep_perm _ hbound ((lcg value : ℤ))
    (fySwap (List.range 256) 255 (jIndex (lcg value) 255)) hswap
  simpa [fyStep] using this

theorem pTable_length (value : ℤ) : (pTable value).length = 256 := by
  simpa using (pTable_perm value).length_eq

/-! ## `seed` overwrites the whole tables -/

theorem foldl_set_length {α : Type*} (f : ℕ → α) (L : List ℕ) (l0 : List α) :
    (L.foldl (fun l i => l.set i (f i)) l0).length = l0.length := by
  induction L generalizing l0 with
  | nil => rfl
  | cons i L ih => simp [List.foldl_cons, ih, List.length_set]

theorem foldl_set_range_getElem? {α : Type*} (f : ℕ → α) (n : ℕ) (l0 : List α) (m : ℕ) :
    ((List.range n).foldl (fun l i => l.set i (f i)) l0)[m]? =
      if m < n ∧ m < l0.length then some (f m) else l0[m]? := by
  induction n with
  | zero => simp
  | succ n ih =>
      rw [List.range_succ, List.foldl_append, List.foldl_cons, List.foldl_nil,
        List.getElem?_set]
      by_cases hm : n = m
      · subst hm
        rw [if_pos rfl, foldl_set_length]
        by_cases hl : n < l0.length
        · simp [hl]
        · rw [if_neg hl, if_neg (by omega), List.getElem?_eq_none (by omega)]
      · rw [if_neg hm, ih]
        by_cases h1 : m < n ∧ m < l0.length
        · rw [if_pos h1, if_pos ⟨by omega, h1.2⟩]
        · rw [if_neg h1, if_neg (by intro hcon; exact h1 ⟨by omega, hcon.2⟩)]

theorem foldl_set_range_eq_map {α : Type*} (f : ℕ → α) (n : ℕ) (l0 : List α)
    (h : l0.length = n) :
    (List.range n).foldl (fun l i => l.set i (f i)) l0 = (List.range n).map f := by
  apply List.ext_getElem?
  intro m
  rw [foldl_set_range_getElem?, List.getElem?_map]
  by_cases hm : m < n
  · rw [if_pos ⟨hm, by omega⟩, List.getElem?_range hm]
    rfl
  · rw [if_neg (by omega), List.getElem?_eq_none (by omega),
      List.getElem?_eq_none (by simpa using by omega : (List.range n).length ≤ m)]
    rfl

theorem seed_perm_eq (st : NoiseState) (value : ℤ) (h : st.perm.length = 512) :
    (seed st value).perm = permTable value := by
  unfold seed permTable
  rw [← List.foldl_hom NoiseState.perm _
      (fun l i => l.set i ((pTable value).getD (i % 256) 0)) (List.range 512) st
      (fun x y => rfl)]
  exact foldl_set_range_eq_map _ 512 st.perm h

theorem seed_gradP_eq (st : NoiseState) (value : ℤ) (h : st.gradP.length = 512) :
    (seed st value).gradP = gradPTable value := by
  unfold seed gradPTable
  rw [← List.foldl_hom NoiseState.gradP _
      (fun l i => l.set i (grad3.getD ((pTable value).getD (i % 256) 0 % 12) (0, 0, 0)))
      (List.range 512) st (fun x y => rfl)]
  exact foldl_set_range_eq_map _ 512 st.gradP h

/-- The function `seed` fully overwrites both 512-entry tables, so the state after
seeding depends only on the seed value, not on the prior tables. -/
theorem seed_eq_canonical (st : NoiseState) (value : ℤ)
    (h1 : st.perm.length = 512) (h2 : st.gradP.length = 512) :
    seed st value = ⟨permTable value, gradPTable value⟩ := by
  ext1
  · exact seed_perm_eq st value h1
  · exact seed_gradP_eq st value h2

theorem permTable_length (value : ℤ) : (permTable value).length = 512 := by
  simp [permTable]

theorem gradPTable_length (value : ℤ) : (gradPTable value).length = 512 := by
  simp [gradPTable]

/-! ## C2: seeding is deterministic and restores state -/

/-- C2: `seed` is deterministic in its seed — seeding any two states with
the same value produces identical tables; `seed(S1); seed(S2); seed(S1)`
restores exactly the state after the first `seed(S1)`; and therefore
`simplex3` returns identical values before and after the round trip. -/
theorem seed_deterministic (st st' : NoiseState) (S1 S2 : ℤ)
    (h1 : st.perm.length = 512) (h2 : st.gradP.length = 512)
    (h1' : st'.perm.length = 512) (h2' : st'.gradP.length = 512) :
    seed st S1 = seed st' S1 ∧
    seed (seed (seed st S1) S2) S1 = seed st S1 ∧
    (∀ x y z : ℝ, simplex3 (seed (seed (seed st S1) S2) S1) x y z
      = simplex3 (seed st S1) x y z) := by
  have e1 : seed st S1 = ⟨permTable S1, gradPTable S1⟩ := seed_eq_canonical _ _ h1 h2
  have e2 : seed st' S1 = ⟨permTable S1, gradPTable S1⟩ := seed_eq_canonical _ _ h1' h2'
  have e3 : seed (seed st S1) S2 = ⟨permTable S2, gradPTable S2⟩ := by
    rw [e1]
    exact seed_eq_canonical _ _ (permTable_length S1) (gradPTable_length S1)
  have e4 : seed (seed (seed st S1) S2) S1 = ⟨permTable S1, gradPTable S1⟩ := by
    rw [e3]
    exact seed_eq_canonical _ _ (permTable_length S2) (gradPTable_length S2)
  exact ⟨e1.trans e2.symm, e4.trans e1.symm, fun x y z => by rw [e4, e1]⟩

theorem seed_deterministic_witness :
    (List.replicate 512 (0 : ℕ)).length = 512 ∧
    (List.replicate 512 ((0 : ℤ), (0 : ℤ), (0 : ℤ))).length = 512 ∧
    (List.replicate 512 (7 : ℕ)).length = 512 ∧
    seed ⟨List.replicate 512 0, List.replicate 512 (0, 0, 0)⟩ 42
      = seed ⟨List.replicate 512 7, List.replicate 512 (0, 0, 0)⟩ 42 :=
  ⟨by simp, by simp, by simp,
    (seed_deterministic ⟨List.replicate 512 0, List.replicate 512 (0, 0, 0)⟩
      ⟨List.replicate 512 7, List.replicate 512 (0, 0, 0)⟩ 42 9
      (by simp) (by simp) (by simp) (by simp)).1⟩

/-! ## C3: the permutation table is a bijection, doubled -/

theorem getD_map_range {α : Type*} (f : ℕ → α) (n k : ℕ) (d : α) (h : k < n) :
    ((List.range n).map f).getD k d = f k := by
  rw [List.getD_eq_getElem _ _ (by simpa using h)]
  simp

theorem getD_map_range_ge {α : Type*} (f : ℕ → α) (n k : ℕ) (d : α) (h : n ≤ k) :
    ((List.range n).map f).getD k d = d := by
  apply List.getD_eq_default
  simp only [List.length_map, List.length_range]
  exact h

theorem map_getD_range_self {α : Type*} (l : List α) (d : α) :
    (List.range l.length).map (fun i => l.getD i d) = l := by
  apply List.ext_getElem (by simp)
  intro i h1 h2
  simp only [List.getElem_map, List.getElem_range]
  exact List.getD_eq_getElem l d h2

/-- C3: after `seed S`, for **every** integer seed `S`, the first 256
entries of `perm` are a permutation of the values `0 … 255`, and the
table is doubled: `perm[i] = perm[i - 256]` for `i ∈ [256, 512)`. -/
theorem seed_perm_bijection (st : NoiseState) (S : ℤ) (h1 : st.perm.length = 512) :
    List.Perm ((seed st S).perm.take 256) (List.range 256) ∧
    (∀ i : ℕ, 256 ≤ i → i < 512 →
      (seed st S).perm.getD i 0 = (seed st S).perm.getD (i - 256) 0) := by
  rw [seed_perm_eq st S h1]
  constructor
  · have htake : (permTable S).take 256 = pTable S := by
      unfold permTable
      rw [← List.map_take, List.take_range, show (256 ⊓ 512 : ℕ) = 256 by norm_num]
      rw [List.map_congr_left (g := fun i => (pTable S).getD i 0)
        (fun i hi => by rw [Nat.mod_eq_of_lt (List.mem_range.mp hi)])]
      rw [show (256 : ℕ) = (pTable S).length from (pTable_length S).symm]
      exact map_getD_range_self _ _
    rw [htake]
    exact pTable_perm S
  · intro i hi1 hi2
    unfold permTable
    rw [getD_map_range _ _ _ _ hi2, getD_map_range _ _ _ _ (by omega)]
    congr 1
    omega

theorem seed_perm_bijection_witness :
    (List.replicate 512 (0 : ℕ)).length = 512 ∧
    List.Perm ((seed ⟨List.replicate 512 0, List.replicate 512 (0, 0, 0)⟩ 0).perm.take 256)
      (List.range 256) :=
  ⟨by simp,
    (seed_perm_bijection ⟨List.replicate 512 0, List.replicate 512 (0, 0, 0)⟩ 0
      (by simp)).1⟩

/-! ## C5: the birth/survival rule of `step` -/

theorem getCell_natCast (g : Grid) (y x : ℕ) :
    getCell g (y : ℤ) (x : ℤ) = (List.getD (α := List Bool) g y []).getD x false := by
  unfold getCell
  rw [if_pos ⟨Int.natCast_nonneg y, Int.natCast_nonneg x⟩, Int.toNat_natCast,
    Int.toNat_natCast]

/-- C5: a cell of `step grid wrap` is alive iff (it was alive and its
live-neighbour count under the boundary policy is 2 or 3) or (it was dead
and the count is exactly 3). -/
theorem step_rule (grid : Grid) (wrap : Bool) (y x : ℕ)
    (hy : y < gridHeight grid) (hx : x < gridWidth grid) :
    (getCell (step grid wrap) (y : ℤ) (x : ℤ) = true ↔
      ((getCell grid (y : ℤ) (x : ℤ) = true ∧
          (countNeighbors grid (x : ℤ) (y : ℤ) wrap = 2 ∨
            countNeighbors grid (x : ℤ) (y : ℤ) wrap = 3)) ∨
        (getCell grid (y : ℤ) (x : ℤ) = false ∧
          countNeighbors grid (x : ℤ) (y : ℤ) wrap = 3))) := by
  rw [getCell_natCast]
  unfold step
  rw [getD_map_range _ _ _ _ hy, getD_map_range _ _ _ _ hx]
  cases halive : getCell grid (y : ℤ) (x : ℤ) with
  | false => simp [halive]
  | true => simp [halive]

theorem step_rule_witness :
    (1 < gridHeight [[true, true], [false, true]] ∧
      1 < gridWidth [[true, true], [false, true]]) ∧
    (getCell (step [[true, true], [false, true]] true) (1 : ℤ) (1 : ℤ) = true ↔
      ((getCell [[true, true], [false, true]] (1 : ℤ) (1 : ℤ) = true ∧
          (countNeighbors [[true, true], [false, true]] (1 : ℤ) (1 : ℤ) true = 2 ∨
            countNeighbors [[true, true], [false, true]] (1 : ℤ) (1 : ℤ) true = 3)) ∨
        (getCell [[true, true], [false, true]] (1 : ℤ) (1 : ℤ) = false ∧
          countNeighbors [[true, true], [false, true]] (1 : ℤ) (1 : ℤ) true = 3))) :=
  ⟨⟨by decide, by decide⟩,
    step_rule [[true, true], [false, true]] true 1 1 (by decide) (by decide)⟩

/-! ## C6: boundary policy of `countNeighbors` -/

theorem gridHeight_singleGrid (w h cx cy : ℕ) :
    gridHeight (singleGrid w h cx cy) = h := by
  simp [gridHeight, singleGrid]

theorem gridWidth_singleGrid (w h cx cy : ℕ) (hh : 0 < h) :
    gridWidth (singleGrid w h cx cy) = w := by
  unfold gridWidth singleGrid
  rw [getD_map_range _ _ _ _ hh]
  simp

theorem getCell_singleGrid (w h cx cy : ℕ) (j i : ℤ) :
    getCell (singleGrid w h cx cy) j i
      = decide (0 ≤ j ∧ 0 ≤ i ∧ j < (h : ℤ) ∧ i < (w : ℤ) ∧ i = (cx : ℤ) ∧ j = (cy : ℤ)) := by
  unfold getCell singleGrid
  by_cases hji : 0 ≤ j ∧ 0 ≤ i
  · rw [if_pos hji]
    by_cases hjh : j.toNat < h
    · rw [getD_map_range _ _ _ _ hjh]
      by_cases hiw : i.toNat < w
      · rw [getD_map_range _ _ _ _ hiw]
        simp only [decide_eq_decide]
        omega
      · have hge : w ≤ i.toNat := Nat.le_of_not_lt hiw
        rw [getD_map_range_ge _ _ _ _ hge]
        symm
        rw [decide_eq_false_iff_not]
        omega
    · have hge : h ≤ j.toNat := Nat.le_of_not_lt hjh
      rw [getD_map_range_ge _ _ _ _ hge]
      simp only [List.getD_nil]
      symm
      rw [decide_eq_false_iff_not]
      omega
  · rw [if_neg hji]
    symm
    rw [decide_eq_false_iff_not]
    omega

theorem neighborAlive_wrap (w h cx cy : ℕ) (hh : 0 < h) (x y : ℤ) (d : ℤ × ℤ) :
    neighborAlive (singleGrid w h cx cy) x y true d
      = getCell (singleGrid w h cx cy) ((y + d.2 + h) % (h : ℤ)) ((x + d.1 + w) % (w : ℤ)) := by
  unfold neighborAlive
  simp [gridWidth_singleGrid _ _ _ _ hh, gridHeight_singleGrid]

theorem neighborAlive_nonwrap (w h cx cy : ℕ) (hh : 0 < h) (x y : ℤ) (d : ℤ × ℤ) :
    neighborAlive (singleGrid w h cx cy) x y false d
      = if x + d.1 < 0 ∨ x + d.1 ≥ (w : ℤ) ∨ y + d.2 < 0 ∨ y + d.2 ≥ (h : ℤ) then false
        else getCell (singleGrid w h cx cy) (y + d.2) (x + d.1) := by
  unfold neighborAlive
  simp [gridWidth_singleGrid _ _ _ _ hh, gridHeight_singleGrid]

/-- C6: boundary policy.  On a grid whose only live cell sits in the last
column of row `y`, the cell at column 0 of row `y` counts exactly one
live neighbour when `wrap = true` (the toroidal wrap reaches the last
column) and zero when `wrap = false` (off-grid probes are dead and the
last column is unreachable). -/
theorem countNeighbors_boundary (w h y : ℕ) (hw : 3 ≤ w) (hh : 2 ≤ h) (hy : y < h) :
    countNeighbors (singleGrid w h (w - 1) y) 0 (y : ℤ) true = 1 ∧
    countNeighbors (singleGrid w h (w - 1) y) 0 (y : ℤ) false = 0 := by
  have hh0 : 0 < h := by omega
  have hcolm : ((0 : ℤ) + -1 + (w : ℤ)) % (w : ℤ) = (w : ℤ) - 1 := by
    rw [show ((0 : ℤ) + -1 + (w : ℤ)) = (w : ℤ) - 1 by ring]
    rw [Int.emod_eq_of_lt (by omega) (by omega)]
  have hcolp : ((0 : ℤ) + 1 + (w : ℤ)) % (w : ℤ) = 1 := by
    rw [show ((0 : ℤ) + 1 + (w : ℤ)) = 1 + (w : ℤ) * 1 by ring, Int.add_mul_emod_self_left]
    rw [Int.emod_eq_of_lt (by omega) (by omega)]
  have hcol0 : ((0 : ℤ) + 0 + (w : ℤ)) % (w : ℤ) = 0 := by
    rw [show ((0 : ℤ) + 0 + (w : ℤ)) = 0 + (w : ℤ) * 1 by ring, Int.add_mul_emod_self_left,
      Int.zero_emod]
  have hrow0 : ((y : ℤ) + 0 + (h : ℤ)) % (h : ℤ) = (y : ℤ) := by
    rw [show ((y : ℤ) + 0 + (h : ℤ)) = (y : ℤ) + (h : ℤ) * 1 by ring,
      Int.add_mul_emod_self_left]
    rw [Int.emod_eq_of_lt (by omega) (by omega)]
  have hrowm : ((y : ℤ) + -1 + (h : ℤ)) % (h : ℤ) ≠ (y : ℤ) := by
    rcases Nat.eq_zero_or_pos y with hy0 | hy1
    · subst hy0
      rw [show (((0 : ℕ) : ℤ) + -1 + (h : ℤ)) = (h : ℤ) - 1 by push_cast; ring]
      rw [Int.emod_eq_of_lt (by omega) (by omega)]
      omega
    · rw [show ((y : ℤ) + -1 + (h : ℤ)) = ((y : ℤ) - 1) + (h : ℤ) * 1 by ring,
        Int.add_mul_emod_self_left, Int.emod_eq_of_lt (by omega) (by omega)]
      omega
  have hrowp : ((y : ℤ) + 1 + (h : ℤ)) % (h : ℤ) ≠ (y : ℤ) := by
    rcases Nat.lt_or_ge (y + 1) h with hlt | hge
    · rw [show ((y : ℤ) + 1 + (h : ℤ)) = ((y : ℤ) + 1) + (h : ℤ) * 1 by ring,
        Int.add_mul_emod_self_left, Int.emod_eq_of_lt (by omega) (by omega)]
      omega
    · have hz : (y : ℤ) + 1 = (h : ℤ) := by omega
      rw [show ((y : ℤ) + 1 + (h : ℤ)) = 0 + (h : ℤ) * 2 by rw [hz]; ring,
        Int.add_mul_emod_self_left, Int.zero_emod]
      omega
  constructor
  · have e1 : neighborAlive (singleGrid w h (w - 1) y) 0 (y : ℤ) true (-1, -1) = false := by
      rw [neighborAlive_wrap _ _ _ _ hh0]
      show getCell _ (((y : ℤ) + -1 + (h : ℤ)) % (h : ℤ)) (((0 : ℤ) + -1 + (w : ℤ)) % (w : ℤ))
        = false
      rw [getCell_singleGrid, decide_eq_false_iff_not]
      intro hP
      exact hrowm hP.2.2.2.2.2
    have e2 : neighborAlive (singleGrid w h (w - 1) y) 0 (y : ℤ) true (0, -1) = false := by
      rw [neighborAlive_wrap _ _ _ _ hh0]
      show getCell _ (((y : ℤ) + -1 + (h : ℤ)) % (h : ℤ)) (((0 : ℤ) + 0 + (w : ℤ)) % (w : ℤ))
        = false
      rw [getCell_singleGrid, decide_eq_false_iff_not]
      intro hP
      exact hrowm hP.2.2.2.2.2
    have e3 : neighborAlive (singleGrid w h (w - 1) y) 0 (y : ℤ) true (1, -1) = false := by
      rw [neighborAlive_wrap _ _ _ _ hh0]
      show getCell _ (((y : ℤ) + -1 + (h : ℤ)) % (h : ℤ)) (((0 : ℤ) + 1 + (w : ℤ)) % (w : ℤ))
        = false
      rw [getCell_singleGrid, decide_eq_false_iff_not]
      intro hP
      exact hrowm hP.2.2.2.2.2
    have e4 : neighborAlive (singleGrid w h (w - 1) y) 0 (y : ℤ) true (-1, 0) = true := by
      rw [neighborAlive_wrap _ _ _ _ hh0]
      show getCell _ (((y : ℤ) + 0 + (h : ℤ)) % (h : ℤ)) (((0 : ℤ) + -1 + (w : ℤ)) % (w : ℤ))
        = true
      rw [hrow0, hcolm, getCell_singleGrid, decide_eq_true_eq]
      omega
    have e5 : neighborAlive (singleGrid w h (w - 1) y) 0 (y : ℤ) true (1, 0) = false := by
      rw [neighborAlive_wrap _ _ _ _ hh0]
      show getCell _ (((y : ℤ) + 0 + (h : ℤ)) % (h : ℤ)) (((0 : ℤ) + 1 + (w : ℤ)) % (w : ℤ))
        = false
      rw [hrow0, hcolp, getCell_singleGrid, decide_eq_false_iff_not]
      omega
    have e6 : neighborAlive (singleGrid w h (w - 1) y) 0 (y : ℤ) true (-1, 1) = false := by
      rw [neighborAlive_wrap _ _ _ _ hh0]
      show getCell _ (((y : ℤ) + 1 + (h : ℤ)) % (h : ℤ)) (((0 : ℤ) + -1 + (w : ℤ)) % (w : ℤ))
        = false
      rw [getCell_singleGrid, decide_eq_false_iff_not]
      intro hP
      exact hrowp hP.2.2.2.2.2
    have e7 : neighborAlive (singleGrid w h (w - 1) y) 0 (y : ℤ) true (0, 1) = false := by
      rw [neighborAlive_wrap _ _ _ _ hh0]
      show getCell _ (((y : ℤ) + 1 + (h : ℤ)) % (h : ℤ)) (((0 : ℤ) + 0 + (w : ℤ)) % (w : ℤ))
        = false
      rw [getCell_singleGrid, decide_eq_false_iff_not]
      intro hP
      exact hrowp hP.2.2.2.2.2
    have e8 : neighborAlive (singleGrid w h (w - 1) y) 0 (y : ℤ) true (1, 1) = false := by
      rw [neighborAlive_wrap _ _ _ _ hh0]
      show getCell _ (((y : ℤ) + 1 + (h : ℤ)) % (h : ℤ)) (((0 : ℤ) + 1 + (w : ℤ)) % (w : ℤ))
        = false
      rw [getCell_singleGrid, decide_eq_false_iff_not]
      intro hP
      exact hrowp hP.2.2.2.2.2
    simp only [countNeighbors, neighborOffsets, List.map_cons, List.map_nil,
      e1, e2, e3, e4, e5, e6, e7, e8, Bool.false_eq_true, if_false, if_true,
      eq_self_iff_true, List.sum_cons, List.sum_nil]
    omega
  · have f1 : neighborAlive (singleGrid w h (w - 1) y) 0 (y : ℤ) false (-1, -1) = false := by
      rw [neighborAlive_nonwrap _ _ _ _ hh0]
      show (if (0 : ℤ) + -1 < 0 ∨ (0 : ℤ) + -1 ≥ (w : ℤ) ∨ (y : ℤ) + -1 < 0 ∨
          (y : ℤ) + -1 ≥ (h : ℤ) then false
        else getCell (singleGrid w h (w - 1) y) ((y : ℤ) + -1) ((0 : ℤ) + -1)) = false
      rw [if_pos (by omega)]
    have f4 : neighborAlive (singleGrid w h (w - 1) y) 0 (y : ℤ) false (-1, 0) = false := by
      rw [neighborAlive_nonwrap _ _ _ _ hh0]
      show (if (0 : ℤ) + -1 < 0 ∨ (0 : ℤ) + -1 ≥ (w : ℤ) ∨ (y : ℤ) + 0 < 0 ∨
          (y : ℤ) + 0 ≥ (h : ℤ) then false
        else getCell (singleGrid w h (w - 1) y) ((y : ℤ) + 0) ((0 : ℤ) + -1)) = false
      rw [if_pos (by omega)]
    have f6 : neighborAlive (singleGrid w h (w - 1) y) 0 (y : ℤ) false (-1, 1) = false := by
      rw [neighborAlive_nonwrap _ _ _ _ hh0]
      show (if (0 : ℤ) + -1 < 0 ∨ (0 : ℤ) + -1 ≥ (w : ℤ) ∨ (y : ℤ) + 1 < 0 ∨
          (y : ℤ) + 1 ≥ (h : ℤ) then false
        else getCell (singleGrid w h (w - 1) y) ((y : ℤ) + 1) ((0 : ℤ) + -1)) = false
      rw [if_pos (by omega)]
    have f2 : neighborAlive (singleGrid w h (w - 1) y) 0 (y : ℤ) false (0, -1) = false := by
      rw [neighborAlive_nonwrap _ _ _ _ hh0]
      show (if (0 : ℤ) + 0 < 0 ∨ (0 : ℤ) + 0 ≥ (w : ℤ) ∨ (y : ℤ) + -1 < 0 ∨
          (y : ℤ) + -1 ≥ (h : ℤ) then false
        else getCell (singleGrid w h (w - 1) y) ((y : ℤ) + -1) ((0 : ℤ) + 0)) = false
      split
      · rfl
      · rw [getCell_singleGrid, decide_eq_false_iff_not]
        omega
    have f3 : neighborAlive (singleGrid w h (w - 1) y) 0 (y : ℤ) false (1, -1) = false := by
      rw [neighborAlive_nonwrap _ _ _ _ hh0]
      show (if (0 : ℤ) + 1 < 0 ∨ (0 : ℤ) + 1 ≥ (w : ℤ) ∨ (y : ℤ) + -1 < 0 ∨
          (y : ℤ) + -1 ≥ (h : ℤ) then false
        else getCell (singleGrid w h (w - 1) y) ((y : ℤ) + -1) ((0 : ℤ) + 1)) = false
      split
      · rfl
      · rw [getCell_singleGrid, decide_eq_false_iff_not]
        omega
    have f5 : neighborAlive (singleGrid w h (w - 1) y) 0 (y : ℤ) false (1, 0) = false := by
      rw [neighborAlive_nonwrap _ _ _ _ hh0]
      show (if (0 : ℤ) + 1 < 0 ∨ (0 : ℤ) + 1 ≥ (w : ℤ) ∨ (y : ℤ) + 0 < 0 ∨
          (y : ℤ) + 0 ≥ (h : ℤ) then false
        else getCell (singleGrid w h (w - 1) y) ((y : ℤ) + 0) ((0 : ℤ) + 1)) = false
      split
      · rfl
      · rw [getCell_singleGrid, decide_eq_false_iff_not]
        omega
    have f7 : neighborAlive (singleGrid w h (w - 1) y) 0 (y : ℤ) false (0, 1) = false := by
      rw [neighborAlive_nonwrap _ _ _ _ hh0]
      show (if (0 : ℤ) + 0 < 0 ∨ (0 : ℤ) + 0 ≥ (w : ℤ) ∨ (y : ℤ) + 1 < 0 ∨
          (y : ℤ) + 1 ≥ (h : ℤ) then false
        else getCell (singleGrid w h (w - 1) y) ((y : ℤ) + 1) ((0 : ℤ) + 0)) = false
      split
      · rfl
      · rw [getCell_singleGrid, decide_eq_false_iff_not]
        omega
    have f8 : neighborAlive (singleGrid w h (w - 1) y) 0 (y : ℤ) false (1, 1) = false := by
      rw [neighborAlive_nonwrap _ _ _ _ hh0]
      show (if (0 : ℤ) + 1 < 0 ∨ (0 : ℤ) + 1 ≥ (w : ℤ) ∨ (y : ℤ) + 1 < 0 ∨
          (y : ℤ) + 1 ≥ (h : ℤ) then false
        else getCell (singleGrid w h (w - 1) y) ((y : ℤ) + 1) ((0 : ℤ) + 1)) = false
      split
      · rfl
      · rw [getCell_singleGrid, decide_eq_false_iff_not]
        omega
    simp only [countNeighbors, neighborOffsets, List.map_cons, List.map_nil,
      f1, f2, f3, f4, f5, f6, f7, f8, Bool.false_eq_true, if_false, if_true,
      eq_self_iff_true, List.sum_cons, List.sum_nil]
    omega

theorem countNeighbors_boundary_witness :
    ((3 : ℕ) ≤ 4 ∧ (2 : ℕ) ≤ 3 ∧ (1 : ℕ) < 3) ∧
    (countNeighbors (singleGrid 4 3 (4 - 1) 1) 0 (1 : ℤ) true = 1 ∧
      countNeighbors (singleGrid 4 3 (4 - 1) 1) 0 (1 : ℤ) false = 0) :=
  ⟨⟨by decide, by decide, by decide⟩,
    countNeighbors_boundary 4 3 1 (by decide) (by decide) (by decide)⟩

/-! ## C9: `placePattern` characterisation -/

theorem getCell_setCell (g : Grid) (y x : ℕ) (v : Bool) (j i : ℤ) :
    getCell (setCell g y x v) j i =
      if j = (y : ℤ) ∧ i = (x : ℤ) ∧ y < gridHeight g ∧ x < rowLen g y
      then v else getCell g j i := by
  unfold getCell setCell gridHeight rowLen
  by_cases hji : 0 ≤ j ∧ 0 ≤ i
  · rw [if_pos hji, if_pos hji, List.getD_set]
    by_cases h1 : y = j.toNat ∧ y < g.length
    · rw [if_pos h1, List.getD_set]
      by_cases h2 : x = i.toNat ∧ x < (List.getD (α := List Bool) g y []).length
      · rw [if_pos h2, if_pos ⟨by omega, by omega, h1.2, h2.2⟩]
      · rw [if_neg h2, if_neg (by intro hc; exact h2 ⟨by omega, hc.2.2.2⟩), h1.1]
    · rw [if_neg h1, if_neg (by intro hc; exact h1 ⟨by omega, hc.2.2.1⟩)]
  · rw [if_neg hji, if_neg hji,
      if_neg (by intro hc; exact hji ⟨by omega, by omega⟩)]

theorem setCell_length (g : Grid) (y x : ℕ) (v : Bool) :
    (setCell g y x v).length = List.length (α := List Bool) g := by
  simp [setCell]

theorem setCell_rowLen (g : Grid) (y x : ℕ) (v : Bool) (k : ℕ) :
    rowLen (setCell g y x v) k = rowLen g k := by
  unfold rowLen setCell
  rw [List.getD_set]
  split
  · next h => rw [List.length_set, h.1]
  · rfl

theorem placeCell_length (W H : ℕ) (pattern : List (List Bool)) (ox oy : ℤ)
    (cur : Grid) (py px : ℕ) :
    (placeCell W H pattern ox oy cur py px).length = List.length (α := List Bool) cur := by
  unfold placeCell
  split
  · exact setCell_length _ _ _ _
  · rfl

theorem placeCell_rowLen (W H : ℕ) (pattern : List (List Bool)) (ox oy : ℤ)
    (cur : Grid) (py px k : ℕ) :
    rowLen (placeCell W H pattern ox oy cur py px) k = rowLen cur k := by
  unfold placeCell
  split
  · exact setCell_rowLen _ _ _ _ _
  · rfl

theorem innerFold_shape (W H : ℕ) (pattern : List (List Bool)) (ox oy : ℤ) (py : ℕ)
    (L : List ℕ) (cur : Grid) :
    (L.foldl (fun c px => placeCell W H pattern ox oy c py px) cur).length
        = List.length (α := List Bool) cur ∧
    (∀ k, rowLen (L.foldl (fun c px => placeCell W H pattern ox oy c py px) cur) k
        = rowLen cur k) := by
  induction L generalizing cur with
  | nil => exact ⟨rfl, fun k => rfl⟩
  | cons px L ih =>
      rw [List.foldl_cons]
      obtain ⟨hl, hr⟩ := ih (placeCell W H pattern ox oy cur py px)
      exact ⟨hl.trans (placeCell_length _ _ _ _ _ _ _ _),
        fun k => (hr k).trans (placeCell_rowLen _ _ _ _ _ _ _ _ _)⟩

theorem getCell_placeCell (W H : ℕ) (pattern : List (List Bool)) (ox oy : ℤ)
    (cur : Grid) (py px : ℕ) (j i : ℤ) :
    getCell (placeCell W H pattern ox oy cur py px) j i =
      if 0 ≤ ox + (px : ℤ) ∧ ox + (px : ℤ) < (W : ℤ)
          ∧ 0 ≤ oy + (py : ℤ) ∧ oy + (py : ℤ) < (H : ℤ) then
        (if j = (((oy + (py : ℤ)).toNat : ℕ) : ℤ) ∧ i = (((ox + (px : ℤ)).toNat : ℕ) : ℤ)
            ∧ (oy + (py : ℤ)).toNat < gridHeight cur
            ∧ (ox + (px : ℤ)).toNat < rowLen cur (oy + (py : ℤ)).toNat
         then (pattern.getD py []).getD px false else getCell cur j i)
      else getCell cur j i := by
  unfold placeCell
  split
  · rw [getCell_setCell]
  · rfl

theorem innerFold_getCell (W H : ℕ) (pattern : List (List Bool)) (ox oy : ℤ) (py : ℕ)
    (cur : Grid) (hH : List.length (α := List Bool) cur = H)
    (hW : ∀ k, k < H → rowLen cur k = W)
    (n : ℕ) (j i : ℤ) (hj0 : 0 ≤ j) (hi0 : 0 ≤ i) :
    getCell ((List.range n).foldl (fun c px => placeCell W H pattern ox oy c py px) cur) j i
      = if j = oy + (py : ℤ) ∧ j < (H : ℤ) ∧ i < (W : ℤ) ∧ ox ≤ i ∧ i < ox + (n : ℤ)
        then (pattern.getD py []).getD (i - ox).toNat false
        else getCell cur j i := by
  induction n with
  | zero =>
      rw [List.range_zero, List.foldl_nil, if_neg (by push_cast; omega)]
  | succ n ih =>
      rw [List.range_succ, List.foldl_append, List.foldl_cons, List.foldl_nil]
      have hshape := innerFold_shape W H pattern ox oy py (List.range n) cur
      rw [getCell_placeCell]
      by_cases hg : 0 ≤ ox + (n : ℤ) ∧ ox + (n : ℤ) < (W : ℤ)
          ∧ 0 ≤ oy + (py : ℤ) ∧ oy + (py : ℤ) < (H : ℤ)
      · rw [if_pos hg]
        have hgh : gridHeight ((List.range n).foldl
            (fun c px => placeCell W H pattern ox oy c py px) cur) = H := by
          unfold gridHeight
          rw [hshape.1, hH]
        have hgr : rowLen ((List.range n).foldl
            (fun c px => placeCell W H pattern ox oy c py px) cur)
            (oy + (py : ℤ)).toNat = W := by
          rw [hshape.2, hW _ (by omega)]
        rw [hgh, hgr]
        by_cases htarget : j = oy + (py : ℤ) ∧ i = ox + (n : ℤ)
        · rw [if_pos ⟨by omega, by omega, by omega, by omega⟩]
          have h5 : (i - ox).toNat = n := by omega
          rw [if_pos ⟨htarget.1, by omega, by omega, by omega, by omega⟩, h5]
        · rw [if_neg (by intro hc; exact htarget ⟨by omega, by omega⟩), ih]
          by_cases hcnd : j = oy + (py : ℤ) ∧ j < (H : ℤ) ∧ i < (W : ℤ)
              ∧ ox ≤ i ∧ i < ox + (n : ℤ)
          · rw [if_pos hcnd,
              if_pos ⟨hcnd.1, hcnd.2.1, hcnd.2.2.1, hcnd.2.2.2.1, by push_cast; omega⟩]
          · rw [if_neg hcnd, if_neg (by
              intro hc
              by_cases hieq : i = ox + (n : ℤ)
              · exact htarget ⟨hc.1, hieq⟩
              · exact hcnd ⟨hc.1, hc.2.1, hc.2.2.1, hc.2.2.2.1, by push_cast at hc ⊢; omega⟩)]
      · rw [if_neg hg, ih]
        by_cases hcnd : j = oy + (py : ℤ) ∧ j < (H : ℤ) ∧ i < (W : ℤ)
            ∧ ox ≤ i ∧ i < ox + (n : ℤ)
        · rw [if_pos hcnd,
            if_pos ⟨hcnd.1, hcnd.2.1, hcnd.2.2.1, hcnd.2.2.2.1, by push_cast; omega⟩]
        · rw [if_neg hcnd, if_neg (by
            intro hc
            by_cases hieq : i = ox + (n : ℤ)
            · exact hg ⟨by omega, by omega, by omega, by omega⟩
            · exact hcnd ⟨hc.1, hc.2.1, hc.2.2.1, hc.2.2.2.1, by push_cast at hc ⊢; omega⟩)]

theorem outerFold_shape (W H : ℕ) (pattern : List (List Bool)) (ox oy : ℤ)
    (L : List ℕ) (cur : Grid) :
    ((L.foldl (fun cur py => (List.range (pattern.getD py []).length).foldl
        (fun c px => placeCell W H pattern ox oy c py px) cur) cur)).length
      = List.length (α := List Bool) cur ∧
    (∀ k, rowLen (L.foldl (fun cur py => (List.range (pattern.getD py []).length).foldl
        (fun c px => placeCell W H pattern ox oy c py px) cur) cur) k = rowLen cur k) := by
  induction L generalizing cur with
  | nil => exact ⟨rfl, fun k => rfl⟩
  | cons py L ih =>
      rw [List.foldl_cons]
      obtain ⟨hl, hr⟩ := ih ((List.range (pattern.getD py []).length).foldl
        (fun c px => placeCell W H pattern ox oy c py px) cur)
      obtain ⟨hl2, hr2⟩ := innerFold_shape W H pattern ox oy py
        (List.range (pattern.getD py []).length) cur
      exact ⟨hl.trans hl2, fun k => (hr k).trans (hr2 k)⟩

theorem outerFold_getCell (W H : ℕ) (pattern : List (List Bool)) (ox oy : ℤ)
    (grid : Grid) (hH : List.length (α := List Bool) grid = H)
    (hW : ∀ k, k < H → rowLen grid k = W)
    (n : ℕ) (j i : ℤ) (hj0 : 0 ≤ j) (hjH : j < (H : ℤ)) (hi0 : 0 ≤ i) (hiW : i < (W : ℤ)) :
    getCell ((List.range n).foldl (fun cur py =>
        (List.range (pattern.getD py []).length).foldl
          (fun c px => placeCell W H pattern ox oy c py px) cur) grid) j i
      = if oy ≤ j ∧ j < oy + (n : ℤ) ∧ ox ≤ i
            ∧ i < ox + ((pattern.getD (j - oy).toNat []).length : ℤ)
        then (pattern.getD (j - oy).toNat []).getD (i - ox).toNat false
        else getCell grid j i := by
  induction n with
  | zero =>
      rw [List.range_zero, List.foldl_nil, if_neg (by push_cast; omega)]
  | succ n ih =>
      rw [List.range_succ, List.foldl_append, List.foldl_cons, List.foldl_nil]
      have hshape := outerFold_shape W H pattern ox oy (List.range n) grid
      rw [innerFold_getCell W H pattern ox oy n _ (hshape.1.trans hH)
        (fun k hk => (hshape.2 k).trans (hW k hk)) _ j i hj0 hi0]
      by_cases hj : j = oy + (n : ℤ)
      · have hjn : (j - oy).toNat = n := by omega
        by_cases hcol : ox ≤ i ∧ i < ox + ((pattern.getD n []).length : ℤ)
        · rw [if_pos ⟨hj, hjH, hiW, hcol.1, hcol.2⟩,
            if_pos ⟨by omega, by push_cast; omega, hcol.1, by rw [hjn]; exact hcol.2⟩, hjn]
        · rw [if_neg (by intro hc; exact hcol ⟨hc.2.2.2.1, hc.2.2.2.2⟩), ih,
            if_neg (by intro hc; omega),
            if_neg (by intro hc; exact hcol ⟨hc.2.2.1, by rw [← hjn]; exact hc.2.2.2⟩)]
      · rw [if_neg (by intro hc; exact hj hc.1), ih]
        by_cases hcnd : oy ≤ j ∧ j < oy + (n : ℤ) ∧ ox ≤ i
            ∧ i < ox + ((pattern.getD (j - oy).toNat []).length : ℤ)
        · rw [if_pos hcnd, if_pos ⟨hcnd.1, by push_cast; omega, hcnd.2.2.1, hcnd.2.2.2⟩]
        · rw [if_neg hcnd,
            if_neg (by intro hc; exact hcnd ⟨hc.1, by push_cast at hc ⊢; omega, hc.2.2.1,
              hc.2.2.2⟩)]

/-- C9: `placePattern` overlays the pattern at the offset — every in-bounds
grid cell inside the pattern's footprint takes the pattern value, every
cell outside the footprint keeps the original grid value, pattern cells
whose target lies outside the grid are silently dropped, and no write
changes the grid's dimensions (the input grid itself is untouched: the
model is pure, mirroring the source's copy-then-mutate). -/
theorem placePattern_spec (grid : Grid) (pattern : List (List Bool)) (ox oy : ℤ)
    (hrect : ∀ k, k < gridHeight grid → rowLen grid k = gridWidth grid) :
    (∀ j i : ℤ, 0 ≤ j → j < (gridHeight grid : ℤ) → 0 ≤ i → i < (gridWidth grid : ℤ) →
      getCell (placePattern grid pattern ox oy) j i =
        if oy ≤ j ∧ j < oy + (pattern.length : ℤ) ∧ ox ≤ i
            ∧ i < ox + (rowLen pattern (j - oy).toNat : ℤ)
        then (List.getD pattern (j - oy).toNat []).getD (i - ox).toNat false
        else getCell grid j i) ∧
    (placePattern grid pattern ox oy).length = List.length (α := List Bool) grid ∧
    (∀ k, rowLen (placePattern grid pattern ox oy) k = rowLen grid k) := by
  refine ⟨?_, ?_, ?_⟩
  · intro j i hj0 hjH hi0 hiW
    unfold placePattern
    exact outerFold_getCell (gridWidth grid) (gridHeight grid) pattern ox oy grid rfl
      hrect pattern.length j i hj0 hjH hi0 hiW
  · unfold placePattern
    exact (outerFold_shape _ _ pattern ox oy (List.range pattern.length) grid).1
  · unfold placePattern
    exact (outerFold_shape _ _ pattern ox oy (List.range pattern.length) grid).2

theorem placePattern_spec_witness :
    (∀ k, k < gridHeight (createGrid 3 3) → rowLen (createGrid 3 3) k = gridWidth (createGrid 3 3)) ∧
    ((0 : ℤ) ≤ 1 ∧ (1 : ℤ) < gridHeight (createGrid 3 3) ∧ (1 : ℤ) < gridWidth (createGrid 3 3)) ∧
    getCell (placePattern (createGrid 3 3) [[true]] 1 1) 1 1 =
      (if (1 : ℤ) ≤ 1 ∧ (1 : ℤ) < 1 + (([[true]] : List (List Bool)).length : ℤ) ∧ (1 : ℤ) ≤ 1
          ∧ (1 : ℤ) < 1 + (rowLen [[true]] ((1 : ℤ) - 1).toNat : ℤ)
       then (List.getD [[true]] ((1 : ℤ) - 1).toNat []).getD ((1 : ℤ) - 1).toNat false
       else getCell (createGrid 3 3) 1 1) :=
  ⟨by decide, ⟨by decide, by decide, by decide⟩,
    (placePattern_spec (createGrid 3 3) [[true]] 1 1 (by decide)).1 1 1
      (by decide) (by decide) (by decide) (by decide)⟩
